import Mathlib

/-!
# Verification of the dns-discovery DNS wire codec, cache and resolver

A shallow embedding of the Go sources of `sourabh-kumar2/dns-discovery`:

* `dns/internal/question.go` — `decodeDomainName`, `ParseQuestion`;
* `dns/request.go`           — `ParseQuery`;
* `dns/response.go`          — `BuildDNSResponse`, `encodeDomainName`;
* `dns/resolver.go`          — `Resolver.Resolve`;
* `discovery/cache.go`       — `Cache.Set` / `Cache.Get` / `Cache.Update` /
  `Cache.refresh`.

Modelling conventions:

* Go `[]byte` buffers are `List Nat` whose elements are byte values; Go
  `string` values (domain names, cache keys) are modelled as their UTF-8 byte
  lists (`List Nat`), which matches Go's byte-oriented `len`, indexing and
  `strings.Split`.
* The Go code addresses packets with `uint16` offsets; offsets are modelled
  as `Nat`, which coincides with the Go behaviour for packets under 64 KiB
  (the UDP maximum the server can receive).  Where Go performs a narrowing
  conversion that can actually truncate (`uint16(pointer)`, `uint32(TTL)`,
  `uint16(rdataBuf.Len())`), the model keeps the explicit `% 2^w`.
* Fallible Go functions returning `(..., error)` become `Except DnsError _`.
  Each `DnsError` constructor corresponds to one distinct `fmt.Errorf` site
  of the Go code (the Go errors are distinguishable by message).
* The unbounded `for` loop of `decodeDomainName` is modelled by structural
  recursion on a fuel parameter; the artificial out-of-fuel outcome is the
  distinguished `DnsError.fuelExhausted`, and the development proves that
  with fuel `len(data) + 1` this outcome is unreachable, which is exactly
  the visited-set termination argument of the Go code.
-/

/-- Errors of the codec / cache pipeline.  Each constructor stands for one
distinct error site in the Go sources (see the doc comment above);
`fuelExhausted` is the artificial out-of-fuel marker of the loop model and
corresponds to no Go error. -/
inductive DnsError where
  | offsetOutOfRange
  | pointerLoop
  | invalidPointer
  | pointerOutOfRange
  | invalidLabelLength
  | incompleteQuestion
  | invalidQType
  | invalidQClass
  | malformed
  | invalidHeader
  | noQuestions
  | labelTooLong
  | txtTooLong
  | fuelExhausted
  deriving DecidableEq, Repr

/-- Big-endian 16-bit read at `i` (`binary.BigEndian.Uint16(data[i:i+2])`). -/
def get16 (data : List Nat) (i : Nat) : Nat :=
  256 * data.getD i 0 + data.getD (i + 1) 0

/-- Big-endian 16-bit write (`binary.Write(..., BigEndian, uint16 v)`):
the two bytes of `v`, truncated to 16 bits as the Go conversion does. -/
def enc16 (v : Nat) : List Nat :=
  [v / 256 % 256, v % 256]

/-- Big-endian 32-bit write (`binary.Write(..., BigEndian, uint32 v)`). -/
def enc32 (v : Nat) : List Nat :=
  [v / 16777216 % 256, v / 65536 % 256, v / 256 % 256, v % 256]

/-- In-place big-endian 16-bit patch (`binary.BigEndian.PutUint16(b[i:], v)`). -/
def put16 (l : List Nat) (i v : Nat) : List Nat :=
  (l.set i (v / 256 % 256)).set (i + 1) (v % 256)

/-- The loop body of `decodeDomainName` (dns/internal/question.go).  One Go
loop iteration per fuel unit:

1. bounds check on `offset`;
2. pointer-loop check against the visited set, then mark `offset` visited;
3. length byte `0` terminates: the result offset is `returnOffset` after a
   pointer jump, the position after the terminator otherwise;
4. a `0xC0`-masked byte is a compression pointer: validate the second byte
   and the 14-bit target, record `offset + 2` as the return offset on the
   first jump only, and continue from the target;
5. otherwise copy the label bytes, then append `'.'` (byte 46) iff the next
   byte is neither the terminator nor a pointer tag. -/
def decodeDomainNameGo (data : List Nat) (offset : Nat) (visited : List Nat)
    (domain : List Nat) (jumped : Bool) (returnOffset : Nat) :
    Nat → Except DnsError (List Nat × Nat)
  | 0 => .error .fuelExhausted
  | fuel + 1 =>
    if offset ≥ data.length then .error .offsetOutOfRange
    else if offset ∈ visited then .error .pointerLoop
    else
      let visited' := offset :: visited
      let len := data.getD offset 0
      if len = 0 then
        .ok (domain, if jumped then returnOffset else offset + 1)
      else if len &&& 0xC0 = 0xC0 then
        if offset + 1 ≥ data.length then .error .invalidPointer
        else
          let pointer := get16 data offset &&& 0x3FFF
          if pointer ≥ data.length then .error .pointerOutOfRange
          else
            decodeDomainNameGo data pointer visited' domain true
              (if jumped then returnOffset else offset + 2) fuel
      else
        if offset + 1 + len > data.length then .error .invalidLabelLength
        else
          let seg := (data.drop (offset + 1)).take len
          let next := offset + 1 + len
          let domain' :=
            if next < data.length ∧ data.getD next 0 ≠ 0 ∧
                data.getD next 0 &&& 0xC0 ≠ 0xC0 then
              domain ++ seg ++ [46]
            else domain ++ seg
          decodeDomainNameGo data next visited' domain' jumped returnOffset fuel

/-- `decodeDomainName` (dns/internal/question.go): bounds check, the
single-byte root-domain shortcut, then the visited-set loop with fuel
`len(data) + 1`. -/
def decodeDomainName (data : List Nat) (offset : Nat) :
    Except DnsError (List Nat × Nat) :=
  if offset ≥ data.length then .error .offsetOutOfRange
  else if data.getD offset 0 = 0 then .ok ([], offset + 1)
  else decodeDomainNameGo data offset [] [] false offset (data.length + 1)

deriving instance DecidableEq for Except

/-- A DNS question (dns/internal/question.go).  `DomainName` is the byte list
of the Go string. -/
structure Question where
  DomainName : List Nat
  QType : Nat
  QClass : Nat
  deriving DecidableEq, Repr

/-- The DNS message header (dns/internal, six big-endian 16-bit fields). -/
structure Header where
  TransactionID : Nat
  Flags : Nat
  QDCount : Nat
  ANCount : Nat
  NSCount : Nat
  ARCount : Nat
  deriving DecidableEq, Repr

/-- `validQTypes` (dns/internal/question.go): A, NS, CNAME, SOA, MX, TXT,
AAAA. -/
def validQTypes : List Nat := [1, 2, 5, 6, 15, 16, 28]

/-- `validQClasses` (dns/internal/question.go): IN, CH, HS. -/
def validQClasses : List Nat := [1, 3, 4]

/-- `ParseQuestion` (dns/internal/question.go): decode the name, require four
more bytes, validate QType and QClass, return the cursor after QClass. -/
def ParseQuestion (data : List Nat) (offset : Nat) :
    Except DnsError (Question × Nat) :=
  match decodeDomainName data offset with
  | .error e => .error e
  | .ok (domainName, newOffset) =>
    if newOffset + 4 > data.length then .error .incompleteQuestion
    else
      let qType := get16 data newOffset
      if qType ∉ validQTypes then .error .invalidQType
      else
        let qClass := get16 data (newOffset + 2)
        if qClass ∉ validQClasses then .error .invalidQClass
        else .ok (⟨domainName, qType, qClass⟩, newOffset + 4)

/-- Modelled from the spec: `internal.HeaderLength`.  The file
`dns/internal/header.go` is referenced by `dns/request.go` but is not among
the provided sources; the spec fixes the header at 12 bytes. -/
def HeaderLength : Nat := 12

/-- Modelled from the spec: `internal.ParseHeader` (dns/internal/header.go is
referenced by `dns/request.go` but is not among the provided sources).  Per
spec §3/§4.1: fewer than 12 bytes is `Malformed`; the six fields are
big-endian 16-bit reads at offsets 0,2,4,6,8,10; `QDCount = 0` and
`QDCount ≥ 10` are rejected, `Opcode` (bits 11–14 of the flags) must be in
`{0,1,2}`, and each such violation is the typed `InvalidHeader` error,
distinct from `Malformed`.  (A historical in-repo variant of
`parseDNSHeader` performs exactly these checks.) -/
def ParseHeader (data : List Nat) : Except DnsError Header :=
  if data.length < 12 then .error .malformed
  else if get16 data 4 = 0 then .error .invalidHeader
  else if get16 data 4 ≥ 10 then .error .invalidHeader
  else if (get16 data 2 >>> 11) &&& 0xF > 2 then .error .invalidHeader
  else .ok ⟨get16 data 0, get16 data 2, get16 data 4, get16 data 6,
    get16 data 8, get16 data 10⟩

/-- The question loop of `ParseQuery` (dns/request.go): parse `n` questions
advancing the cursor, aborting on the first failure. -/
def parseQuestions (data : List Nat) (offset : Nat) :
    Nat → Except DnsError (List Question × Nat)
  | 0 => .ok ([], offset)
  | n + 1 =>
    match ParseQuestion data offset with
    | .error e => .error e
    | .ok (q, newOffset) =>
      match parseQuestions data newOffset n with
      | .error e => .error e
      | .ok (qs, finalOffset) => .ok (q :: qs, finalOffset)

/-- `ParseQuery` (dns/request.go): length precheck, header parse, then
exactly `QDCount` question sections starting at offset 12. -/
def ParseQuery (data : List Nat) : Except DnsError (Header × List Question) :=
  if data.length < HeaderLength then .error .malformed
  else
    match ParseHeader data with
    | .error e => .error e
    | .ok header =>
      match parseQuestions data HeaderLength header.QDCount with
      | .error e => .error e
      | .ok (questions, _) => .ok (header, questions)

/-- A cached DNS record (discovery/cache.go): wire-ready value bytes and a
TTL duration (Go `time.Duration` nanoseconds, modelled as `Nat`). -/
structure Record where
  Value : List Nat
  TTL : Nat
  deriving DecidableEq, Repr

/-- The cache's key → record map (Go `map[string]Record`), modelled as an
association list with unique keys; keys are string byte lists. -/
abbrev Cache := List (List Nat × Record)

/-- Decimal digits of `n` as ASCII bytes (Go `fmt.Sprintf("%d", n)`). -/
def decimalBytes (n : Nat) : List Nat :=
  (Nat.toDigits 10 n).map Char.toNat

/-- `formatKey` (discovery/cache.go): `fmt.Sprintf("__%d__.%s", qType,
domain)` as bytes. -/
def formatKey (domain : List Nat) (qType : Nat) : List Nat :=
  [95, 95] ++ decimalBytes qType ++ [95, 95, 46] ++ domain

/-- Map lookup (Go `record, exists := c.data[key]`). -/
def mapGet : List (List Nat × Record) → List Nat → Option Record
  | [], _ => none
  | (k, r) :: t, key => if k = key then some r else mapGet t key

/-- Map insert/overwrite (Go `c.data[key] = record`). -/
def mapSet : List (List Nat × Record) → List Nat → Record →
    List (List Nat × Record)
  | [], key, r => [(key, r)]
  | (k, r') :: t, key, r =>
    if k = key then (key, r) :: t else (k, r') :: mapSet t key r

/-- `Cache.Set` (discovery/cache.go): store a record under
`formatKey(domain, qType)` with the given TTL. -/
def Cache.Set (c : Cache) (domain : List Nat) (qType : Nat)
    (value : List Nat) (ttl : Nat) : Cache :=
  mapSet c (formatKey domain qType) ⟨value, ttl⟩

/-- `Cache.Get` (discovery/cache.go): look the key up in the map and return
a copy of the record, `none` when absent.  The Go body performs no
expiration check and consults no clock. -/
def Cache.Get (c : Cache) (domain : List Nat) (qType : Nat) : Option Record :=
  mapGet c (formatKey domain qType)

/-- `Cache.Update` (discovery/cache.go): atomically replace the whole map. -/
def Cache.Update (_ : Cache) (newRecords : Cache) : Cache :=
  newRecords

/-- `Cache.refresh` (discovery/cache.go): invoke the injected loader
(`loadFromFile`, an external collaborator modelled by its outcome); on
error return the error leaving the cache alone, on success `Update` with
the fresh map.  The returned pair is (cache state after the call, error
outcome). -/
def Cache.refresh (c : Cache) (loadResult : Except Unit Cache) :
    Cache × Option Unit :=
  match loadResult with
  | .error e => (c, some e)
  | .ok newRecords => (Cache.Update c newRecords, none)

/-- `strings.Split(domain, ".")` on byte lists: split at every byte 46,
keeping empty parts (`splitOnDot [] = [[]]`, as in Go). -/
def splitOnDot : List Nat → List (List Nat)
  | [] => [[]]
  | b :: rest =>
    if b = 46 then [] :: splitOnDot rest
    else
      match splitOnDot rest with
      | [] => [[b]]
      | h :: t => (b :: h) :: t

/-- Joining labels with `'.'` (byte 46); the inverse of `splitOnDot`. -/
def joinDots : List (List Nat) → List Nat
  | [] => []
  | [l] => l
  | l :: ls => l ++ 46 :: joinDots ls

/-- The label loop of `encodeDomainName` (dns/response.go): each label as a
length byte followed by its bytes; a label over 63 bytes fails. -/
def writeLabels (buf : List Nat) : List (List Nat) →
    Except DnsError (List Nat)
  | [] => .ok buf
  | l :: ls =>
    if l.length > 63 then .error .labelTooLong
    else writeLabels (buf ++ l.length :: l) ls

/-- The byte sequence `writeLabels` appends for a valid label list. -/
def encLabels : List (List Nat) → List Nat
  | [] => []
  | l :: ls => l.length :: l ++ encLabels ls

/-- `encodeDomainName` (dns/response.go).  Faithful to the Go control flow:
an empty domain writes a `0x00` byte and *falls through*; a domain already
in the offset table emits the 2-byte pointer `0xC000 ||| offset` and
returns; otherwise the current buffer length is recorded as the domain's
offset, the labels of `strings.Split(domain, ".")` are written, and a
`0x00` terminator ends the name. -/
def encodeDomainName (buf : List Nat) (domain : List Nat)
    (domainOffsets : List (List Nat × Nat)) :
    Except DnsError (List Nat × List (List Nat × Nat)) :=
  let buf0 := if domain = [] then buf ++ [0] else buf
  match domainOffsets.lookup domain with
  | some offset => .ok (buf0 ++ enc16 (0xC000 ||| offset), domainOffsets)
  | none =>
    let domainOffsets' := (domain, buf0.length) :: domainOffsets
    match writeLabels buf0 (splitOnDot domain) with
    | .error e => .error e
    | .ok buf' => .ok (buf' ++ [0], domainOffsets')

/-- The first question loop of `BuildDNSResponse` (dns/response.go): write
each question's name (through the shared offset table), QType and QClass. -/
def writeQuestions (buf : List Nat) (domainOffsets : List (List Nat × Nat)) :
    List Question → Except DnsError (List Nat × List (List Nat × Nat))
  | [] => .ok (buf, domainOffsets)
  | q :: qs =>
    match encodeDomainName buf q.DomainName domainOffsets with
    | .error e => .error e
    | .ok (buf1, offsets1) =>
      writeQuestions (buf1 ++ enc16 q.QType ++ enc16 q.QClass) offsets1 qs

/-- The second question loop of `BuildDNSResponse` (dns/response.go): for
each question, a cache miss writes nothing; a hit bumps the answer count
and writes name (compressed via the offset table), QType, QClass, the
32-bit truncated TTL, RDLENGTH and RDATA (TXT values length-prefixed and
limited to 255 bytes). -/
def writeAnswers (cache : Cache) (buf : List Nat)
    (domainOffsets : List (List Nat × Nat)) (anCount : Nat) :
    List Question → Except DnsError (List Nat × List (List Nat × Nat) × Nat)
  | [] => .ok (buf, domainOffsets, anCount)
  | q :: qs =>
    match Cache.Get cache q.DomainName q.QType with
    | none => writeAnswers cache buf domainOffsets anCount qs
    | some record =>
      match encodeDomainName buf q.DomainName domainOffsets with
      | .error e => .error e
      | .ok (buf1, offsets1) =>
        let buf2 := buf1 ++ enc16 q.QType ++ enc16 q.QClass ++
          enc32 (record.TTL % 4294967296)
        if q.QType = 16 then
          if record.Value.length > 255 then .error .txtTooLong
          else
            writeAnswers cache
              (buf2 ++ enc16 ((record.Value.length + 1) % 65536) ++
                record.Value.length :: record.Value)
              offsets1 (anCount + 1) qs
        else
          writeAnswers cache
            (buf2 ++ enc16 (record.Value.length % 65536) ++ record.Value)
            offsets1 (anCount + 1) qs

/-- `QRResponse` (dns/response.go). -/
def QRResponse : Nat := 0x8000

/-- `RANotAvailable` (dns/response.go): the constant the builder ORs into
the flags; its value `0x0080` is the RA bit of the DNS flags word. -/
def RANotAvailable : Nat := 0x0080

/-- `NXDomain` (dns/response.go). -/
def NXDomain : Nat := 0x0003

/-- `BuildDNSResponse` (dns/response.go): reject an empty question list; OR
`QRResponse | RANotAvailable` into the flags and zero AN/NS/AR; write the
12-byte header, the mirrored question sections, then the answers; OR
`NXDomain` into the flags when no answer was written; finally patch the
flags (bytes 2–3) and ANCount (bytes 6–7) in place. -/
def BuildDNSResponse (questions : List Question) (header : Header)
    (cache : Cache) : Except DnsError (List Nat) :=
  if questions = [] then .error .noQuestions
  else
    let flags := header.Flags ||| QRResponse ||| RANotAvailable
    let hdrBytes := enc16 header.TransactionID ++ enc16 flags ++
      enc16 header.QDCount ++ enc16 0 ++ enc16 0 ++ enc16 0
    match writeQuestions hdrBytes [] questions with
    | .error e => .error e
    | .ok (buf1, offsets1) =>
      match writeAnswers cache buf1 offsets1 0 questions with
      | .error e => .error e
      | .ok (buf2, _, anCount) =>
        let finalFlags := if anCount = 0 then flags ||| NXDomain else flags
        .ok (put16 (put16 buf2 2 finalFlags) 6 anCount)

/-- `Resolver.Resolve` (dns/resolver.go): parse the query, then build the
response against the cache, propagating either failure. -/
def Resolve (cache : Cache) (query : List Nat) :
    Except DnsError (List Nat) :=
  match ParseQuery query with
  | .error e => .error e
  | .ok (header, questions) => BuildDNSResponse questions header cache

/-- The position of the first compression-pointer byte in the original
(non-jumped) label stream starting at `offset`: walk label by label; a
terminator or leaving the buffer means there is none. -/
def firstPtr (data : List Nat) (offset : Nat) : Nat → Option Nat
  | 0 => none
  | fuel + 1 =>
    if offset ≥ data.length then none
    else
      let len := data.getD offset 0
      if len = 0 then none
      else if len &&& 0xC0 = 0xC0 then some offset
      else firstPtr data (offset + 1 + len) fuel

/-- Byte list of an ASCII string, for concrete inputs. -/
def strBytes (s : String) : List Nat :=
  s.toList.map Char.toNat

example : decodeDomainName [7, 101, 120, 97, 109, 112, 108, 101,
    3, 99, 111, 109, 0] 0 =
    .ok ([101, 120, 97, 109, 112, 108, 101, 46, 99, 111, 109], 13) := by decide

example : decodeDomainName [0xC0, 0x00] 0 = .error .pointerLoop := by decide


/-! ## Generic facts about the decoder loop -/

/-- Pigeonhole: a duplicate-free list of naturals all below `n` has at most
`n` elements. -/
theorem nodup_lt_length_le {vis : List Nat} {n : Nat} (hnd : vis.Nodup)
    (hlt : ∀ v ∈ vis, v < n) : vis.length ≤ n := by
  have hsub : vis.toFinset ⊆ Finset.range n := by
    intro v hv
    simp only [List.mem_toFinset] at hv
    exact Finset.mem_range.mpr (hlt v hv)
  have hcard := Finset.card_le_card hsub
  rwa [List.toFinset_card_of_nodup hnd, Finset.card_range] at hcard

/-- The decoder loop never runs out of fuel as long as the fuel exceeds the
number of not-yet-visited buffer offsets: every iteration either returns or
marks a fresh in-bounds offset visited. -/
theorem decodeDomainNameGo_ne_fuelExhausted (data : List Nat) :
    ∀ (fuel offset : Nat) (visited domain : List Nat) (jumped : Bool)
      (returnOffset : Nat), visited.Nodup →
      (∀ v ∈ visited, v < data.length) →
      data.length < fuel + visited.length →
      decodeDomainNameGo data offset visited domain jumped returnOffset fuel ≠
        .error .fuelExhausted := by
  intro fuel
  induction fuel with
  | zero =>
    intro offset visited domain jumped ro hnd hlt hfuel
    have := nodup_lt_length_le hnd hlt
    omega
  | succ fuel ih =>
    intro offset visited domain jumped ro hnd hlt hfuel
    simp only [decodeDomainNameGo]
    split
    · simp
    · split
      · simp
      · next hoob hmem =>
        split
        · simp
        · split
          · split
            · simp
            · split
              · simp
              · exact ih _ _ _ _ _
                  (List.nodup_cons.mpr ⟨hmem, hnd⟩)
                  (by
                    intro v hv
                    rcases List.mem_cons.mp hv with h | h
                    · omega
                    · exact hlt v h)
                  (by simp; omega)
          · split
            · simp
            · exact ih _ _ _ _ _
                (List.nodup_cons.mpr ⟨hmem, hnd⟩)
                (by
                  intro v hv
                  rcases List.mem_cons.mp hv with h | h
                  · omega
                  · exact hlt v h)
                (by simp; omega)

/-- **C10.** `decodeDomainName` terminates on every input buffer and every
starting offset: each loop iteration either returns or marks a previously
unvisited offset (necessarily below the buffer length) visited, so fuel
`len(data) + 1` — at most `len(data) + 1` iterations — is never exhausted,
even on adversarial pointer chains. -/
theorem decodeDomainName_terminates (data : List Nat) (offset : Nat) :
    decodeDomainName data offset ≠ .error .fuelExhausted := by
  unfold decodeDomainName
  split
  · simp
  · split
    · simp
    · exact decodeDomainNameGo_ne_fuelExhausted data (data.length + 1) offset
        [] [] false offset List.nodup_nil (by simp) (by simp)

/-- **C1.** Revisiting any already-visited in-bounds offset makes the
decoder loop fail with the pointer-loop error, and in particular decoding
the self-referential pointer `0xC0 0x00` at offset 0 returns the loop error
(rather than looping or overflowing: termination is
`decodeDomainName_terminates`). -/
theorem decode_pointer_loop_defense :
    (∀ (data : List Nat) (offset : Nat) (visited domain : List Nat)
       (jumped : Bool) (returnOffset fuel : Nat),
       offset < data.length → offset ∈ visited →
       decodeDomainNameGo data offset visited domain jumped returnOffset
         (fuel + 1) = .error .pointerLoop) ∧
    decodeDomainName [0xC0, 0x00] 0 = .error .pointerLoop := by
  constructor
  · intro data offset visited domain jumped ro fuel hlt hmem
    simp only [decodeDomainNameGo]
    rw [if_neg (by omega), if_pos hmem]
  · decide

/-- Witness for `decode_pointer_loop_defense`: the general clause applied to
the state the self-pointer `0xC0 0x00` reaches after its first jump. -/
theorem decode_pointer_loop_defense_witness :
    (0 < 2 ∧ (0 : Nat) ∈ [0]) ∧
    decodeDomainNameGo [0xC0, 0x00] 0 [0] [] true 2 1 =
      .error .pointerLoop :=
  ⟨⟨by decide, by decide⟩,
    decode_pointer_loop_defense.1 [0xC0, 0x00] 0 [0] [] true 2 0
      (by decide) (by decide)⟩

/-- After a jump has happened (`jumped = true`), a successful run of the
decoder loop returns exactly the recorded `returnOffset`: later pointers
and labels never change it. -/
theorem decodeDomainNameGo_jumped_returns (data : List Nat) :
    ∀ (fuel offset : Nat) (visited domain : List Nat) (returnOffset : Nat)
      (name : List Nat) (next : Nat),
      decodeDomainNameGo data offset visited domain true returnOffset fuel =
        .ok (name, next) →
      next = returnOffset := by
  intro fuel
  induction fuel with
  | zero =>
    intro offset visited domain ro name next h
    simp [decodeDomainNameGo] at h
  | succ fuel ih =>
    intro offset visited domain ro name next h
    simp only [decodeDomainNameGo] at h
    split at h
    · cases h
    · split at h
      · cases h
      · split at h
        · simp only [if_true] at h
          exact ((Prod.mk.injEq _ _ _ _ ▸ Except.ok.inj h).2).symm
        · split at h
          · split at h
            · cases h
            · split at h
              · cases h
              · exact ih _ _ _ _ _ _ h
          · split at h
            · cases h
            · exact ih _ _ _ _ _ _ h

/-- Before any jump, the decoder loop's cursor follows exactly the
label-walk of `firstPtr`; when that walk meets a pointer at position `p`,
a successful decode returns the offset `p + 2`. -/
theorem decodeDomainNameGo_first_pointer (data : List Nat) :
    ∀ (fuel offset p : Nat) (visited domain : List Nat) (returnOffset : Nat)
      (name : List Nat) (next : Nat),
      firstPtr data offset fuel = some p →
      decodeDomainNameGo data offset visited domain false returnOffset fuel =
        .ok (name, next) →
      next = p + 2 := by
  intro fuel
  induction fuel with
  | zero =>
    intro offset p visited domain ro name next hp h
    simp [firstPtr] at hp
  | succ fuel ih =>
    intro offset p visited domain ro name next hp h
    simp only [firstPtr] at hp
    simp only [decodeDomainNameGo] at h
    split at h
    · cases h
    · next hoob =>
      rw [if_neg hoob] at hp
      split at h
      · cases h
      · split at h
        · next hlen =>
          rw [if_pos hlen] at hp
          cases hp
        · next hlen =>
          rw [if_neg hlen] at hp
          split at h
          · next hptr =>
            rw [if_pos hptr] at hp
            split at h
            · cases h
            · split at h
              · cases h
              · have hro := decodeDomainNameGo_jumped_returns data fuel _ _ _ _
                  _ _ h
                cases Option.some.inj hp
                simp only [Bool.false_eq_true, if_false] at hro
                omega
          · next hptr =>
            rw [if_neg hptr] at hp
            split at h
            · cases h
            · exact ih _ p _ _ _ _ _ hp h

/-- **C5.** When decoding a name follows one or more compression pointers —
i.e. the original, non-jumped label stream starting at `offset` reaches its
first pointer byte at position `p` — the `nextOffset` of a successful
`decodeDomainName` is `p + 2`, the position immediately after the two bytes
of that first pointer, never an offset derived from a jump target. -/
theorem decode_first_jump_return_offset (data : List Nat) (offset p : Nat)
    (name : List Nat) (next : Nat)
    (hp : firstPtr data offset (data.length + 1) = some p)
    (hd : decodeDomainName data offset = .ok (name, next)) :
    next = p + 2 := by
  unfold decodeDomainName at hd
  split at hd
  · cases hd
  · next hoob =>
    split at hd
    · next hzero =>
      rw [show data.length + 1 = data.length + 0 + 1 from rfl] at hp
      simp only [firstPtr] at hp
      rw [if_neg hoob, if_pos hzero] at hp
      cases hp
    · exact decodeDomainNameGo_first_pointer data (data.length + 1) offset p
        [] [] offset name next hp hd

/-- The multi-question packet of the repository's parser tests: question 2
at offset 29 is `3www` followed by a pointer to `example.com` at offset 12,
so its first pointer sits at offset 33. -/
def mqData : List Nat :=
  [0x56, 0x78, 0x01, 0x00, 0x00, 0x02, 0, 0, 0, 0, 0, 0] ++
  [7] ++ strBytes "example" ++ [3] ++ strBytes "com" ++ [0, 0, 1, 0, 1] ++
  [3] ++ strBytes "www" ++ [0xC0, 0x0C] ++ [0, 1, 0, 1]

/-- Witness for `decode_first_jump_return_offset`: in `mqData` the name at
offset 29 jumps from its pointer at offset 33, and the decoder's
`nextOffset` is 35 = 33 + 2, not an offset at the jump target 12.  (The
decoded bytes are `www` directly followed by `example.com`: the Go decoder
appends no dot separator before a pointer jump.) -/
theorem decode_first_jump_return_offset_witness :
    firstPtr mqData 29 (mqData.length + 1) = some 33 ∧
    decodeDomainName mqData 29 =
      .ok (strBytes "www" ++ strBytes "example.com", 35) ∧
    (35 : Nat) = 33 + 2 :=
  ⟨by decide, by decide,
    decode_first_jump_return_offset mqData 29 33
      (strBytes "www" ++ strBytes "example.com") 35 (by decide) (by decide)⟩

/-- The decoder loop can only fail with its own five error outcomes; in
particular it never produces the encoder's `labelTooLong` error. -/
theorem decodeDomainNameGo_ne_labelTooLong (data : List Nat) :
    ∀ (fuel offset : Nat) (visited domain : List Nat) (jumped : Bool)
      (returnOffset : Nat),
      decodeDomainNameGo data offset visited domain jumped returnOffset
        fuel ≠ .error .labelTooLong := by
  intro fuel
  induction fuel with
  | zero =>
    intro offset visited domain jumped ro
    simp [decodeDomainNameGo]
  | succ fuel ih =>
    intro offset visited domain jumped ro
    simp only [decodeDomainNameGo]
    split
    · simp
    · split
      · simp
      · split
        · simp
        · split
          · split
            · simp
            · split
              · simp
              · exact ih _ _ _ _ _
          · split
            · simp
            · exact ih _ _ _ _ _

/-- A 64-byte label: its length byte 64 = 0x40 is not `0xC0`-masked. -/
def label64Data : List Nat := 64 :: List.replicate 64 97 ++ [0]

/-- A five-label name, 63 bytes per label: 319 decoded bytes. -/
def name319Data : List Nat :=
  encLabels (List.replicate 5 (List.replicate 63 97)) ++ [0]

/-- The decoded form of `name319Data`: five 63-byte labels joined by dots. -/
def name319 : List Nat := joinDots (List.replicate 5 (List.replicate 63 97))

/-- **C7 (counterexample).** A label length byte of 64 — greater than 63 and
not `0xC0`-masked — does *not* fail: `decodeDomainName` decodes it as an
ordinary 64-byte label and succeeds, so no `LabelTooLong` rejection
exists in the decoder. -/
theorem decode_label_over_63_succeeds :
    decodeDomainName label64Data 0 = .ok (List.replicate 64 97, 66) := by
  decide

set_option maxRecDepth 8000 in
/-- **C7 (amended).** `decodeDomainName` enforces no label-length bound and
no total-name-length bound: it can never return the `labelTooLong` error
(first clause; no `NameTooLong`-style outcome exists at all in its error
repertoire), a 64-byte label decodes successfully, and a name decoding to
319 bytes — over the claimed 255-byte cap — also decodes successfully. -/
theorem decode_no_length_limits :
    (∀ (data : List Nat) (offset : Nat),
      decodeDomainName data offset ≠ .error .labelTooLong) ∧
    decodeDomainName label64Data 0 = .ok (List.replicate 64 97, 66) ∧
    decodeDomainName name319Data 0 = .ok (name319, 321) ∧
    255 < name319.length := by
  refine ⟨?_, by decide, by decide, by decide⟩
  intro data offset
  unfold decodeDomainName
  split
  · simp
  · split
    · simp
    · exact decodeDomainNameGo_ne_labelTooLong data (data.length + 1) offset
        [] [] false offset

/-! ## Cache claims -/

/-- **C8.** `Cache.Get` after `Cache.Set` returns the stored record
*unconditionally*: the body of `Cache.Get` consults no clock and performs
no expiration check, and no sweep deletes `Set` entries, so a record whose
TTL has elapsed is still returned (the historical expiry test stores
`expired.com` with a 2-second TTL and expects a miss after 3 seconds; the
current code returns the record at any later time). -/
theorem cacheGet_ignores_ttl :
    Cache.Get (Cache.Set [] (strBytes "expired.com") 1 [127, 0, 0, 1] 2) 
      (strBytes "expired.com") 1 = some ⟨[127, 0, 0, 1], 2⟩ ∧
    (∀ (c : Cache) (domain : List Nat) (qType : Nat) (value : List Nat)
       (ttl : Nat),
       Cache.Get (Cache.Set c domain qType value ttl) domain qType =
         some ⟨value, ttl⟩) := by
  constructor
  · decide
  · intro c domain qType value ttl
    unfold Cache.Get Cache.Set
    induction c with
    | nil => simp [mapGet, mapSet]
    | cons kv t ih =>
      obtain ⟨k, r⟩ := kv
      by_cases hk : k = formatKey domain qType
      · simp [mapSet, mapGet, hk]
      · simp only [mapSet, mapGet, hk, if_false, if_neg hk]
        exact ih

/-- **C9.** A failing reload leaves the cache's map entirely unchanged:
`Cache.refresh` returns the old cache on the error path without invoking
`Cache.Update`, so every subsequent `Cache.Get` answers exactly as before
the failed refresh. -/
theorem refresh_error_preserves_cache (c : Cache) (e : Unit)
    (domain : List Nat) (qType : Nat) :
    (Cache.refresh c (.error e)).1 = c ∧
    Cache.Get (Cache.refresh c (.error e)).1 domain qType =
      Cache.Get c domain qType := by
  exact ⟨rfl, rfl⟩

/-! ## Response-builder claims -/

/-- **C3 (divergence).** On the repository's own single-question example
(`example.com`, type A, empty cache), the response produced by
`BuildDNSResponse` has the QR bit `0x8000` of the 16-bit flags at byte
offset 2 set — and the RA bit `0x0080` *also set*: the builder ORs the
misnamed constant `RANotAvailable = 0x0080` into the flags, so the RA bit
is 0x80, not 0 as the claim requires. -/
theorem buildDNSResponse_sets_ra_bit :
    (BuildDNSResponse [⟨strBytes "example.com", 1, 1⟩]
        ⟨0x1234, 0x0100, 1, 0, 0, 0⟩ []).map
      (fun r => (get16 r 2 &&& 0x8000, get16 r 2 &&& 0x0080)) =
    .ok (0x8000, 0x0080) := by
  decide

/-! ## Header claim -/

/-- **C6.** For buffers of at least 12 bytes, `ParseHeader` accepts exactly
QDCount in [1, 9] and Opcode in {0, 1, 2}: a QDCount of 0 or of 10 and
above, or an Opcode above 2, yields the typed `invalidHeader` error, which
is distinct from the too-short `malformed` error; conversely a successful
parse guarantees the bounds. -/
theorem parseHeader_validates (data : List Nat) (hlen : 12 ≤ data.length) :
    (∀ h : Header, ParseHeader data = .ok h →
      1 ≤ h.QDCount ∧ h.QDCount ≤ 9 ∧ (h.Flags >>> 11) &&& 0xF ≤ 2) ∧
    (get16 data 4 = 0 ∨ 10 ≤ get16 data 4 ∨
        2 < (get16 data 2 >>> 11) &&& 0xF →
      ParseHeader data = .error .invalidHeader) ∧
    DnsError.invalidHeader ≠ DnsError.malformed := by
  refine ⟨?_, ?_, by decide⟩
  · intro h hok
    unfold ParseHeader at hok
    rw [if_neg (by omega)] at hok
    split at hok
    · cases hok
    · split at hok
      · cases hok
      · split at hok
        · cases hok
        · next hqd0 hqd10 hop =>
          cases Except.ok.inj hok
          dsimp only
          exact ⟨by omega, by omega, by omega⟩
  · intro hbad
    unfold ParseHeader
    rw [if_neg (by omega)]
    rcases hbad with hqd | hqd | hop
    · rw [if_pos hqd]
    · rw [if_neg (by omega), if_pos (by omega)]
    · by_cases hqd0 : get16 data 4 = 0
      · rw [if_pos hqd0]
      · by_cases hqd10 : 10 ≤ get16 data 4
        · rw [if_neg hqd0, if_pos hqd10]
        · rw [if_neg hqd0, if_neg hqd10, if_pos (by omega)]

/-- Witness for `parseHeader_validates`: a 12-byte header with QDCount 0 is
rejected with `invalidHeader` (not `malformed`). -/
theorem parseHeader_validates_witness :
    12 ≤ (List.replicate 12 0 : List Nat).length ∧
    ParseHeader (List.replicate 12 0) = .error .invalidHeader :=
  ⟨by decide,
    (parseHeader_validates (List.replicate 12 0) (by decide)).2.1
      (by decide)⟩

/-! ## Helper lemmas for the response-builder proofs -/

/-- A number below 64 shares no bits with `0xC0`. -/
theorem and_192_of_lt_64 {n : Nat} (h : n < 64) : n &&& 192 = 0 := by
  apply Nat.eq_of_testBit_eq
  intro i
  simp only [Nat.testBit_and, Nat.zero_testBit, Bool.and_eq_false_iff]
  rcases Nat.lt_or_ge i 6 with hi | hi
  · right
    interval_cases i <;> decide
  · left
    have h64 : (64 : Nat) = 2 ^ 6 := rfl
    exact Nat.testBit_lt_two_pow
      (lt_of_lt_of_le h (h64 ▸ Nat.pow_le_pow_right (by omega) hi))

/-- `%.16` distributes over bitwise or. -/
theorem or_mod_sixteen (a b : Nat) : (a ||| b) % 16 = a % 16 ||| b % 16 := by
  apply Nat.eq_of_testBit_eq
  intro i
  rw [show (16 : Nat) = 2 ^ 4 from rfl, Nat.testBit_mod_two_pow,
    Nat.testBit_or, Nat.testBit_or, Nat.testBit_mod_two_pow,
    Nat.testBit_mod_two_pow]
  by_cases hi : i < 4 <;> simp [hi]

/-- `splitOnDot` never returns the empty list of parts. -/
theorem splitOnDot_ne_nil (l : List Nat) : splitOnDot l ≠ [] := by
  induction l with
  | nil => simp [splitOnDot]
  | cons b rest ih =>
    simp only [splitOnDot]
    split
    · simp
    · split
      · simp_all
      · simp

/-- Joining the parts of `splitOnDot` restores the original bytes. -/
theorem joinDots_splitOnDot (l : List Nat) : joinDots (splitOnDot l) = l := by
  induction l with
  | nil => rfl
  | cons b rest ih =>
    simp only [splitOnDot]
    split
    · next hb =>
      rcases hrest : splitOnDot rest with _ | ⟨h, t⟩
      · exact absurd hrest (splitOnDot_ne_nil rest)
      · rw [hrest] at ih
        simp only [joinDots, hb]
        cases t <;> simp_all [joinDots]
    · next hb =>
      rcases hrest : splitOnDot rest with _ | ⟨h, t⟩
      · exact absurd hrest (splitOnDot_ne_nil rest)
      · rw [hrest] at ih
        cases t <;> simp_all [joinDots]

/-- `writeLabels` succeeds on labels of at most 63 bytes and appends their
length-prefixed encoding. -/
theorem writeLabels_ok :
    ∀ (ls : List (List Nat)) (buf : List Nat),
      (∀ l ∈ ls, l.length ≤ 63) →
      writeLabels buf ls = .ok (buf ++ encLabels ls)
  | [], buf, _ => by simp [writeLabels, encLabels]
  | l :: ls, buf, h => by
    have hl : l.length ≤ 63 := h l (by simp)
    rw [writeLabels, if_neg (by omega),
      writeLabels_ok ls (buf ++ l.length :: l) (fun x hx => h x (by simp [hx]))]
    simp [encLabels]

/-- `encodeDomainName` succeeds whenever every label of the domain is at
most 63 bytes, and only appends to the buffer. -/
theorem encodeDomainName_ok (buf domain : List Nat)
    (offsets : List (List Nat × Nat))
    (hl : ∀ l ∈ splitOnDot domain, l.length ≤ 63) :
    ∃ tail offsets',
      encodeDomainName buf domain offsets = .ok (buf ++ tail, offsets') := by
  unfold encodeDomainName
  rcases hlk : List.lookup domain offsets with _ | off
  · dsimp only
    by_cases hd : domain = []
    · rw [if_pos hd, writeLabels_ok (splitOnDot domain) (buf ++ [0]) hl]
      exact ⟨[0] ++ encLabels (splitOnDot domain) ++ [0],
        (domain, (buf ++ [0]).length) :: offsets, by simp⟩
    · rw [if_neg hd, writeLabels_ok (splitOnDot domain) buf hl]
      exact ⟨encLabels (splitOnDot domain) ++ [0],
        (domain, buf.length) :: offsets, by simp⟩
  · dsimp only
    by_cases hd : domain = []
    · rw [if_pos hd]
      exact ⟨[0] ++ enc16 (0xC000 ||| off), offsets, by simp⟩
    · rw [if_neg hd]
      exact ⟨enc16 (0xC000 ||| off), offsets, by simp⟩

/-- The question loop of the builder succeeds under the 63-byte label bound
and only appends to the buffer. -/
theorem writeQuestions_ok :
    ∀ (qs : List Question) (buf : List Nat)
      (offsets : List (List Nat × Nat)),
      (∀ q ∈ qs, ∀ l ∈ splitOnDot q.DomainName, l.length ≤ 63) →
      ∃ tail offsets',
        writeQuestions buf offsets qs = .ok (buf ++ tail, offsets')
  | [], buf, offsets, _ => ⟨[], offsets, by simp [writeQuestions]⟩
  | q :: qs, buf, offsets, h => by
    obtain ⟨tail1, offsets1, h1⟩ :=
      encodeDomainName_ok buf q.DomainName offsets (h q (by simp))
    obtain ⟨tail2, offsets2, h2⟩ :=
      writeQuestions_ok qs (buf ++ tail1 ++ enc16 q.QType ++ enc16 q.QClass)
        offsets1 (fun x hx => h x (by simp [hx]))
    exact ⟨tail1 ++ enc16 q.QType ++ enc16 q.QClass ++ tail2, offsets2, by
      rw [writeQuestions, h1]
      dsimp only
      rw [h2]
      simp⟩

/-- When every question misses the cache, the answer loop writes nothing
and reports zero answers. -/
theorem writeAnswers_all_miss (cache : Cache) :
    ∀ (qs : List Question) (buf : List Nat)
      (offsets : List (List Nat × Nat)) (an : Nat),
      (∀ q ∈ qs, Cache.Get cache q.DomainName q.QType = none) →
      writeAnswers cache buf offsets an qs = .ok (buf, offsets, an)
  | [], buf, offsets, an, _ => rfl
  | q :: qs, buf, offsets, an, h => by
    rw [writeAnswers, h q (by simp),
      writeAnswers_all_miss cache qs buf offsets an
        (fun x hx => h x (by simp [hx]))]

/-- A successful `ParseHeader` returns exactly the six big-endian fields of
the buffer, which is at least 12 bytes, with `QDCount` at least 1. -/
theorem parseHeader_ok_fields (data : List Nat) (h : Header)
    (hok : ParseHeader data = .ok h) :
    h.Flags = get16 data 2 ∧ h.QDCount = get16 data 4 ∧
    12 ≤ data.length ∧ 1 ≤ h.QDCount := by
  unfold ParseHeader at hok
  split at hok
  · cases hok
  · next hlen =>
    split at hok
    · cases hok
    · next hqd0 =>
      split at hok
      · cases hok
      · next hqd10 =>
        split at hok
        · cases hok
        · cases Except.ok.inj hok
          refine ⟨rfl, rfl, by omega, ?_⟩
          dsimp only
          omega

/-- `parseQuestions` returns exactly as many questions as requested. -/
theorem parseQuestions_length :
    ∀ (n : Nat) (data : List Nat) (offset : Nat) (qs : List Question)
      (finalOffset : Nat),
      parseQuestions data offset n = .ok (qs, finalOffset) →
      qs.length = n
  | 0, data, offset, qs, fo, h => by
    cases Except.ok.inj h
    rfl
  | n + 1, data, offset, qs, fo, h => by
    rw [parseQuestions] at h
    split at h
    · cases h
    · next q newOffset hq =>
      split at h
      · cases h
      · next qs' finalOffset heq =>
        cases Except.ok.inj h
        have hlen := parseQuestions_length n data newOffset qs' fo heq
        simp [hlen]

/-- Decomposition of a successful `ParseQuery`: the header parse succeeded
and the question list has exactly `QDCount` entries. -/
theorem parseQuery_ok_parts (data : List Nat) (h : Header)
    (qs : List Question) (hok : ParseQuery data = .ok (h, qs)) :
    ParseHeader data = .ok h ∧ qs.length = h.QDCount := by
  unfold ParseQuery at hok
  split at hok
  · cases hok
  · split at hok
    · cases hok
    · next header hh =>
      split at hok
      · cases hok
      · next qs2 fo2 hq =>
        cases Except.ok.inj hok
        exact ⟨hh, parseQuestions_length _ data _ _ _ hq⟩

/-- Entries of a byte list read through `getD` are bytes. -/
theorem getD_lt_256 {data : List Nat} (hb : ∀ b ∈ data, b < 256) {i : Nat}
    (hi : i < data.length) : data.getD i 0 < 256 := by
  rw [List.getD_eq_getElem data 0 hi]
  exact hb _ (List.getElem_mem hi)

/-- A well-formed single-question query for `example.com` type A whose
header flags are `0x0104`: opcode 0 (valid) but a nonzero RCODE nibble. -/
def c2Query : List Nat :=
  [0x12, 0x34, 0x01, 0x04, 0x00, 0x01, 0, 0, 0, 0, 0, 0] ++
  [7] ++ strBytes "example" ++ [3] ++ strBytes "com" ++ [0, 0, 1, 0, 1]

/-- **C2 (counterexample).** Resolving the well-formed query `c2Query`
(flags `0x0104`, so a query-side RCODE nibble of 4) against an empty cache
— so its (domain, qtype) is certainly absent — succeeds with ANCount 0 and
the response QDCount equal to the query QDCount 1, but the response RCODE
field is 7, not 3: `BuildDNSResponse` ORs `NXDomain` into the query's
flags instead of setting the nibble. -/
theorem resolve_absent_rcode_is_ored :
    (Resolve [] c2Query).map
      (fun r => (get16 r 2 % 16, get16 r 6, get16 r 4)) =
      .ok (7, 0, 1) := by
  decide

/-- **C2 (amended).** Resolving a well-formed query (one that parses into a
header and questions, with re-encodable label lengths) all of whose
questions miss the cache yields a response with ANCount (bytes 6–7) 0 and
QDCount preserved; the RCODE nibble of the response is the query's RCODE
nibble OR-ed with `NXDomain = 3`, hence exactly 3 whenever the query's
RCODE nibble is 0 — the case of every genuine query. -/
theorem resolve_absent_nxdomain (cache : Cache) (query : List Nat)
    (h : Header) (qs : List Question)
    (hbytes : ∀ b ∈ query, b < 256)
    (hparse : ParseQuery query = .ok (h, qs))
    (hmiss : ∀ q ∈ qs, Cache.Get cache q.DomainName q.QType = none)
    (hlab : ∀ q ∈ qs, ∀ l ∈ splitOnDot q.DomainName, l.length ≤ 63)
    (hnib : h.Flags % 16 = 0) :
    ∃ resp, Resolve cache query = .ok resp ∧
      get16 resp 6 = 0 ∧ get16 resp 2 % 16 = 3 ∧
      get16 resp 4 = get16 query 4 := by
  obtain ⟨hph, hqlen⟩ := parseQuery_ok_parts query h qs hparse
  obtain ⟨hflags, hqd, hdlen, hq1⟩ := parseHeader_ok_fields query h hph
  have hqs_ne : ¬qs = [] := by
    intro hnil
    rw [hnil] at hqlen
    simp at hqlen
    omega
  obtain ⟨tail, offsets', hwq⟩ :=
    writeQuestions_ok qs
      (enc16 h.TransactionID ++
        enc16 (h.Flags ||| QRResponse ||| RANotAvailable) ++
        enc16 h.QDCount ++ enc16 0 ++ enc16 0 ++ enc16 0) [] hlab
  have hwa := writeAnswers_all_miss cache qs
    (enc16 h.TransactionID ++
      enc16 (h.Flags ||| QRResponse ||| RANotAvailable) ++
      enc16 h.QDCount ++ enc16 0 ++ enc16 0 ++ enc16 0 ++ tail)
    offsets' 0 hmiss
  have hres : Resolve cache query =
      .ok (put16 (put16
        (enc16 h.TransactionID ++
          enc16 (h.Flags ||| QRResponse ||| RANotAvailable) ++
          enc16 h.QDCount ++ enc16 0 ++ enc16 0 ++ enc16 0 ++ tail) 2
        (h.Flags ||| QRResponse ||| RANotAvailable ||| NXDomain)) 6 0) := by
    unfold Resolve BuildDNSResponse
    rw [hparse]
    simp only [if_neg hqs_ne, hwq, hwa, if_true]
  refine ⟨_, hres, ?_, ?_, ?_⟩
  · rfl
  · show (256 * ((h.Flags ||| QRResponse ||| RANotAvailable ||| NXDomain) /
      256 % 256) +
      (h.Flags ||| QRResponse ||| RANotAvailable ||| NXDomain) % 256) %
      16 = 3
    have hm : ∀ F : Nat, (256 * (F / 256 % 256) + F % 256) % 16 = F % 16 :=
      fun F => by omega
    rw [hm]
    simp only [QRResponse, RANotAvailable, NXDomain, or_mod_sixteen, hnib]
    decide
  · show 256 * (h.QDCount / 256 % 256) + h.QDCount % 256 = get16 query 4
    have hb4 : query.getD 4 0 < 256 := getD_lt_256 hbytes (by omega)
    have hb5 : query.getD (4 + 1) 0 < 256 := getD_lt_256 hbytes (by omega)
    rw [hqd]
    simp only [get16]
    omega

/-- A standard well-formed single-question query (flags `0x0100`, RCODE
nibble 0) for `example.com` type A. -/
def nxQuery : List Nat :=
  [0x12, 0x34, 0x01, 0x00, 0x00, 0x01, 0, 0, 0, 0, 0, 0] ++
  [7] ++ strBytes "example" ++ [3] ++ strBytes "com" ++ [0, 0, 1, 0, 1]

/-- Witness for `resolve_absent_nxdomain`: the standard `example.com` query
against an empty cache gets ANCount 0, RCODE 3 and QDCount 1 preserved. -/
theorem resolve_absent_nxdomain_witness :
    ∃ resp, Resolve [] nxQuery = .ok resp ∧
      get16 resp 6 = 0 ∧ get16 resp 2 % 16 = 3 ∧
      get16 resp 4 = get16 nxQuery 4 :=
  resolve_absent_nxdomain [] nxQuery ⟨0x1234, 0x0100, 1, 0, 0, 0⟩
    [⟨strBytes "example.com", 1, 1⟩] (by decide) (by decide) (by decide)
    (by decide) (by decide)

/-! ## Decoding an encoded name (for the compression round-trip) -/

/-- `getD` just past a known-length left part reads the right part's head. -/
theorem getD_at_length (A B : List Nat) (i : Nat) (h : A.length = i) :
    (A ++ B).getD i 0 = B.getD 0 0 := by
  subst h
  rw [List.getD_append_right A B 0 A.length (Nat.le_refl _), Nat.sub_self]

/-- `encLabels` on a cons. -/
theorem encLabels_cons (l : List Nat) (ls : List (List Nat)) :
    encLabels (l :: ls) = l.length :: (l ++ encLabels ls) := rfl

/-- A label list is no longer than its encoding. -/
theorem length_le_encLabels :
    ∀ ls : List (List Nat), ls.length ≤ (encLabels ls).length
  | [] => Nat.le_refl _
  | l :: ls => by
    have := length_le_encLabels ls
    simp [encLabels_cons]
    omega

/-- `joinDots` on a cons with a nonempty rest. -/
theorem joinDots_cons (l : List Nat) (ls : List (List Nat)) (h : ls ≠ []) :
    joinDots (l :: ls) = l ++ 46 :: joinDots ls := by
  cases ls with
  | nil => exact absurd rfl h
  | cons a as => rfl

/-- Running the decoder loop over an encoded label sequence
`encLabels ls ++ [0]` sitting at offset `pre.length` appends exactly the
dot-joined labels to the accumulator and stops right after the terminator
(or at the recorded return offset if a jump already happened), provided
the already-visited offsets lie outside the encoded region. -/
theorem decodeDomainNameGo_encLabels :
    ∀ (ls : List (List Nat)) (pre post acc visited : List Nat)
      (jumped : Bool) (ro fuel : Nat),
      ls ≠ [] →
      (∀ l ∈ ls, l ≠ [] ∧ l.length ≤ 63) →
      ls.length + 1 ≤ fuel →
      (∀ v ∈ visited, v < pre.length ∨
        pre.length + (encLabels ls).length + 1 ≤ v) →
      decodeDomainNameGo (pre ++ encLabels ls ++ [0] ++ post) pre.length
        visited acc jumped ro fuel =
        .ok (acc ++ joinDots ls,
          if jumped then ro else pre.length + (encLabels ls).length + 1)
  | [], _, _, _, _, _, _, _, hne, _, _, _ => absurd rfl hne
  | l :: ls', pre, post, acc, visited, jumped, ro, fuel, _, hlab, hfuel,
      hvis => by
    obtain ⟨hl_ne, hl_le⟩ := hlab l (by simp)
    have hl_pos : 1 ≤ l.length := by
      cases l with
      | nil => exact absurd rfl hl_ne
      | cons a as => simp
    obtain ⟨f, rfl⟩ : ∃ f, fuel = f + 1 := ⟨fuel - 1, by omega⟩
    have hDlen : (pre ++ encLabels (l :: ls') ++ [0] ++ post).length =
        pre.length + l.length + (encLabels ls').length + 2 + post.length := by
      simp [encLabels_cons]
      omega
    have hget0 : (pre ++ encLabels (l :: ls') ++ [0] ++ post).getD
        pre.length 0 = l.length := by
      have hD : pre ++ encLabels (l :: ls') ++ [0] ++ post =
          pre ++ (encLabels (l :: ls') ++ [0] ++ post) := by
        simp [List.append_assoc]
      rw [hD, getD_at_length pre _ _ rfl]
      rfl
    have hb : ¬(pre.length ≥
        (pre ++ encLabels (l :: ls') ++ [0] ++ post).length) := by
      rw [hDlen]; omega
    have hmem : pre.length ∉ visited := by
      intro hv
      rcases hvis _ hv with hlt | hge
      · omega
      · omega
    have hl0 : ¬(l.length = 0) := by omega
    have hlm : ¬(l.length &&& 0xC0 = 0xC0) := by
      rw [and_192_of_lt_64 (by omega)]
      decide
    have hbound : ¬(pre.length + 1 + l.length >
        (pre ++ encLabels (l :: ls') ++ [0] ++ post).length) := by
      rw [hDlen]; omega
    have hseg : (((pre ++ encLabels (l :: ls') ++ [0] ++ post).drop
        (pre.length + 1)).take l.length) = l := by
      have hD2 : pre ++ encLabels (l :: ls') ++ [0] ++ post =
          (pre ++ [l.length]) ++ (l ++ (encLabels ls' ++ [0] ++ post)) := by
        simp [encLabels_cons]
      rw [hD2, List.drop_left' (by simp), List.take_left' rfl]
    have hbyte : (pre ++ encLabels (l :: ls') ++ [0] ++ post).getD
        (pre.length + 1 + l.length) 0 =
        (encLabels ls' ++ [0] ++ post).getD 0 0 := by
      have hD3 : pre ++ encLabels (l :: ls') ++ [0] ++ post =
          (pre ++ l.length :: l) ++ (encLabels ls' ++ [0] ++ post) := by
        simp [encLabels_cons]
      rw [hD3]
      exact getD_at_length _ _ _ (by simp; omega)
    simp only [decodeDomainNameGo]
    rw [if_neg hb, if_neg (by simpa using hmem)]
    simp only [hget0]
    rw [if_neg hl0, if_neg hlm, if_neg hbound]
    simp only [hseg, hbyte]
    cases ls' with
    | nil =>
      have hbyte0 : (encLabels ([] : List (List Nat)) ++ [0] ++ post).getD
          0 0 = 0 := rfl
      rw [hbyte0]
      simp only [ne_eq, not_true_eq_false, false_and, and_false, if_false]
      obtain ⟨f', rfl⟩ : ∃ f', f = f' + 1 := ⟨f - 1, by simp at hfuel; omega⟩
      have henc0 : (encLabels ([] : List (List Nat))).length = 0 := rfl
      have henc1 : (encLabels [l]).length = l.length + 1 := by
        simp [encLabels]
      simp only [decodeDomainNameGo]
      rw [if_neg (by rw [hDlen]; omega)]
      rw [if_neg (by
        simp only [List.mem_cons]
        rintro (heq | hv)
        · omega
        · rcases hvis _ hv with hlt | hge
          · omega
          · omega)]
      have hgetT : (pre ++ encLabels [l] ++ [0] ++ post).getD
          (pre.length + 1 + l.length) 0 = 0 := by
        have hD3 : pre ++ encLabels [l] ++ [0] ++ post =
            (pre ++ l.length :: l) ++ ([0] ++ post) := by
          simp [encLabels]
        rw [hD3, getD_at_length _ _ _ (by simp; omega)]
        rfl
      rw [hgetT, if_pos rfl]
      cases jumped <;> simp [joinDots, encLabels] <;> try omega
    | cons l2 ls'' =>
      have hbyte2 : (encLabels (l2 :: ls'') ++ [0] ++ post).getD 0 0 =
          l2.length := rfl
      obtain ⟨hl2_ne, hl2_le⟩ := hlab l2 (by simp)
      have hl2_pos : 1 ≤ l2.length := by
        cases l2 with
        | nil => exact absurd rfl hl2_ne
        | cons a as => simp
      rw [hbyte2]
      rw [if_pos ⟨by rw [hDlen]; simp [encLabels_cons]; omega,
        by omega, by rw [and_192_of_lt_64 (by omega)]; decide⟩]
      have hD4 : pre ++ encLabels (l :: l2 :: ls'') ++ [0] ++ post =
          (pre ++ l.length :: l) ++ encLabels (l2 :: ls'') ++ [0] ++ post := by
        simp [encLabels_cons]
      have hoff : pre.length + 1 + l.length =
          (pre ++ l.length :: l).length := by
        simp
        omega
      rw [hD4, hoff]
      rw [decodeDomainNameGo_encLabels (l2 :: ls'') (pre ++ l.length :: l)
        post (acc ++ l ++ [46]) (pre.length :: visited) jumped ro f
        (by simp)
        (fun x hx => hlab x (by simp [hx]))
        (by simp at hfuel ⊢; omega)
        (by
          intro v hv
          rcases List.mem_cons.mp hv with rfl | hv'
          · left
            simp
            try omega
          · rcases hvis v hv' with hlt | hge
            · left
              simp
              try omega
            · right
              simp only [encLabels_cons] at hge ⊢
              simp at hge ⊢
              omega)]
      cases jumped <;>
        simp [joinDots_cons l (l2 :: ls'') (by simp), encLabels_cons,
          List.append_assoc] <;>
        omega

/-- `getD` inside the right part of an append, by offset from the split. -/
theorem getD_at_length_add (A B : List Nat) (i j : Nat)
    (h : A.length = i) : (A ++ B).getD (i + j) 0 = B.getD j 0 := by
  subst h
  rw [List.getD_append_right A B 0 _ (Nat.le_add_right _ _),
    Nat.add_sub_cancel_left]

/-- One loop step at a fresh `0xC0`-pointer to offset 12: mark the pointer
position visited, record the return offset just past the pointer, and jump
to 12. -/
theorem go_pointer_step (D : List Nat) (p2 : Nat) (hb : p2 + 1 < D.length)
    (h192 : D.getD p2 0 = 192) (hptr : get16 D p2 &&& 0x3FFF = 12)
    (h12lt : 12 < D.length) (fuel : Nat) :
    decodeDomainNameGo D p2 [] [] false p2 (fuel + 1) =
      decodeDomainNameGo D 12 [p2] [] true (p2 + 2) fuel := by
  simp only [decodeDomainNameGo]
  rw [if_neg (by omega), if_neg (by simp), h192, if_neg (by decide),
    if_pos (by decide), if_neg (by omega), hptr, if_neg (by omega)]
  simp

/-- Decoding a name laid out as `encLabels ls ++ [0]` at offset
`pre.length` yields the dot-joined labels and the offset just past the
terminator. -/
theorem decodeDomainName_encLabels (pre post : List Nat)
    (ls : List (List Nat)) (hne : ls ≠ [])
    (hl : ∀ l ∈ ls, l ≠ [] ∧ l.length ≤ 63) :
    decodeDomainName (pre ++ encLabels ls ++ [0] ++ post) pre.length =
      .ok (joinDots ls, pre.length + (encLabels ls).length + 1) := by
  obtain ⟨l, ls', rfl⟩ : ∃ l ls2, ls = l :: ls2 := by
    cases ls with
    | nil => exact absurd rfl hne
    | cons a as => exact ⟨a, as, rfl⟩
  have hl_ne : l ≠ [] := (hl l (by simp)).1
  have hl_pos : 1 ≤ l.length := by
    cases l with
    | nil => exact absurd rfl hl_ne
    | cons a as => simp
  have hDlen : (pre ++ encLabels (l :: ls') ++ [0] ++ post).length =
      pre.length + (encLabels (l :: ls')).length + 1 + post.length := by
    simp
    omega
  have hget0 : (pre ++ encLabels (l :: ls') ++ [0] ++ post).getD
      pre.length 0 = l.length := by
    have hD : pre ++ encLabels (l :: ls') ++ [0] ++ post =
        pre ++ (encLabels (l :: ls') ++ [0] ++ post) := by
      simp [List.append_assoc]
    rw [hD, getD_at_length pre _ _ rfl]
    rfl
  have henc_ge : (l :: ls').length ≤ (encLabels (l :: ls')).length :=
    length_le_encLabels _
  unfold decodeDomainName
  rw [if_neg (by rw [hDlen]; omega), hget0, if_neg (by omega)]
  have happ := decodeDomainNameGo_encLabels (l :: ls') pre post [] []
    false pre.length ((pre ++ encLabels (l :: ls') ++ [0] ++ post).length + 1)
    (by simp) hl (by rw [hDlen]; omega) (by simp)
  simpa using happ

set_option maxHeartbeats 2000000 in
/-- Decoding at a 2-byte pointer `0xC0 0x0C` that references offset 12 —
where the encoded labels sit right after a 12-byte header — jumps there,
decodes the labels, and returns the offset just past the pointer itself. -/
theorem decodeDomainName_ptr12 (b0 b1 b2 b3 b4 b5 b6 b7 b8 b9 b10 b11 : Nat)
    (mid post : List Nat) (ls : List (List Nat)) (hne : ls ≠ [])
    (hl : ∀ l ∈ ls, l ≠ [] ∧ l.length ≤ 63) :
    decodeDomainName
      ([b0, b1, b2, b3, b4, b5, b6, b7, b8, b9, b10, b11] ++ encLabels ls ++
        [0] ++ mid ++ ([192, 12] ++ post))
      (13 + (encLabels ls).length + mid.length) =
      .ok (joinDots ls, 15 + (encLabels ls).length + mid.length) := by
  have henc_ge : ls.length ≤ (encLabels ls).length := length_le_encLabels ls
  have henc_pos : 1 ≤ (encLabels ls).length := by
    cases ls with
    | nil => exact absurd rfl hne
    | cons a as =>
      have := length_le_encLabels (a :: as)
      simp at this ⊢
      omega
  have hAlen : ([b0, b1, b2, b3, b4, b5, b6, b7, b8, b9, b10, b11] ++
      encLabels ls ++ [0] ++ mid).length =
      13 + (encLabels ls).length + mid.length := by
    simp
    omega
  have hassoc : [b0, b1, b2, b3, b4, b5, b6, b7, b8, b9, b10, b11] ++
      encLabels ls ++ [0] ++ mid ++ ([192, 12] ++ post) =
      ([b0, b1, b2, b3, b4, b5, b6, b7, b8, b9, b10, b11] ++
        encLabels ls ++ [0] ++ mid) ++ ([192, 12] ++ post) := by
    simp [List.append_assoc]
  have hDlen : ([b0, b1, b2, b3, b4, b5, b6, b7, b8, b9, b10, b11] ++
      encLabels ls ++ [0] ++ mid ++ ([192, 12] ++ post)).length =
      15 + (encLabels ls).length + mid.length + post.length := by
    simp
    omega
  have h192 : ([b0, b1, b2, b3, b4, b5, b6, b7, b8, b9, b10, b11] ++
      encLabels ls ++ [0] ++ mid ++ ([192, 12] ++ post)).getD
      (13 + (encLabels ls).length + mid.length) 0 = 192 := by
    rw [hassoc, getD_at_length _ _ _ hAlen]
    rfl
  have h12 : ([b0, b1, b2, b3, b4, b5, b6, b7, b8, b9, b10, b11] ++
      encLabels ls ++ [0] ++ mid ++ ([192, 12] ++ post)).getD
      (13 + (encLabels ls).length + mid.length + 1) 0 = 12 := by
    rw [hassoc, getD_at_length_add _ _ _ 1 hAlen]
    rfl
  have hptr : get16 ([b0, b1, b2, b3, b4, b5, b6, b7, b8, b9, b10, b11] ++
      encLabels ls ++ [0] ++ mid ++ ([192, 12] ++ post))
      (13 + (encLabels ls).length + mid.length) &&& 0x3FFF = 12 := by
    rw [get16, h192, h12]
    decide
  unfold decodeDomainName
  rw [if_neg (by rw [hDlen]; omega), h192, if_neg (by omega)]
  rw [go_pointer_step _ _ (by rw [hDlen]; omega) h192 hptr
    (by rw [hDlen]; omega)]
  have happ := decodeDomainNameGo_encLabels ls
    [b0, b1, b2, b3, b4, b5, b6, b7, b8, b9, b10, b11]
    (mid ++ ([192, 12] ++ post)) []
    [13 + (encLabels ls).length + mid.length] true
    (13 + (encLabels ls).length + mid.length + 2)
    (([b0, b1, b2, b3, b4, b5, b6, b7, b8, b9, b10, b11] ++ encLabels ls ++
      [0] ++ mid ++ ([192, 12] ++ post)).length)
    hne hl
    (by rw [hDlen]; omega)
    (by
      intro v hv
      simp only [List.mem_singleton] at hv
      subst hv
      right
      simp
      omega)
  simp only [List.length_cons, List.length_nil, List.nil_append,
    if_true] at happ
  simp only [List.append_assoc] at happ ⊢
  rw [show (13 + (encLabels ls).length + mid.length + 2) =
    (15 + (encLabels ls).length + mid.length) from by omega] at happ
  convert happ using 2
  omega

/-- `encodeDomainName` on a domain not yet in the offset table: record the
current buffer length as its offset and append the length-prefixed labels
and the terminator. -/
theorem encodeDomainName_fresh (buf domain : List Nat)
    (offsets : List (List Nat × Nat)) (hne : domain ≠ [])
    (hlk : List.lookup domain offsets = none)
    (hl : ∀ l ∈ splitOnDot domain, l.length ≤ 63) :
    encodeDomainName buf domain offsets =
      .ok (buf ++ encLabels (splitOnDot domain) ++ [0],
        (domain, buf.length) :: offsets) := by
  unfold encodeDomainName
  simp only [hlk, if_neg hne, writeLabels_ok (splitOnDot domain) buf hl]

/-- `encodeDomainName` on a domain already in the offset table: append
exactly the 2-byte pointer `0xC000 ||| offset` and change nothing else. -/
theorem encodeDomainName_hit (buf domain : List Nat)
    (offsets : List (List Nat × Nat)) (off : Nat) (hne : domain ≠ [])
    (hlk : List.lookup domain offsets = some off) :
    encodeDomainName buf domain offsets =
      .ok (buf ++ enc16 (0xC000 ||| off), offsets) := by
  unfold encodeDomainName
  simp only [hlk, if_neg hne]

/-- Patching the flags (bytes 2–3) and ANCount (bytes 6–7) of a buffer that
starts with six big-endian 16-bit header fields rewrites exactly those two
fields. -/
theorem put16_patch_header (a b c F : Nat) (T : List Nat) :
    put16 (put16 (enc16 a ++ (enc16 b ++ (enc16 c ++ (enc16 0 ++
      (enc16 0 ++ (enc16 0 ++ T)))))) 2 F) 6 0 =
    enc16 a ++ (enc16 F ++ (enc16 c ++ (enc16 0 ++ (enc16 0 ++
      (enc16 0 ++ T))))) := rfl

/-- **C4.** Encoding two questions with the same domain name into one
response writes the name's labels only once — right after the 12-byte
header, at offset 12 — and emits at the second occurrence exactly the two
pointer bytes `[0xC0, 0x0C]`, i.e. `0xC000 ||| 12` big-endian, referencing
the offset where the name was first written; decoding the resulting packet
at both occurrences recovers the identical domain-name byte string.
(Hypotheses: the domain is a nonempty sequence of nonempty labels of at
most 63 bytes, the classical well-formedness of a domain name.) -/
theorem buildDNSResponse_compression_roundtrip (dom : List Nat) (h : Header)
    (qt qc qt2 qc2 : Nat) (hne : dom ≠ [])
    (hl : ∀ l ∈ splitOnDot dom, l ≠ [] ∧ l.length ≤ 63) :
    ∃ resp,
      BuildDNSResponse [⟨dom, qt, qc⟩, ⟨dom, qt2, qc2⟩] h [] = .ok resp ∧
      resp = enc16 h.TransactionID ++
        enc16 (h.Flags ||| QRResponse ||| RANotAvailable ||| NXDomain) ++
        enc16 h.QDCount ++ enc16 0 ++ enc16 0 ++ enc16 0 ++
        encLabels (splitOnDot dom) ++ [0] ++ enc16 qt ++ enc16 qc ++
        [192, 12] ++ enc16 qt2 ++ enc16 qc2 ∧
      decodeDomainName resp 12 =
        .ok (dom, 13 + (encLabels (splitOnDot dom)).length) ∧
      decodeDomainName resp (17 + (encLabels (splitOnDot dom)).length) =
        .ok (dom, 19 + (encLabels (splitOnDot dom)).length) := by
  have hl63 : ∀ l ∈ splitOnDot dom, l.length ≤ 63 := fun l hl' => (hl l hl').2
  have hjd : joinDots (splitOnDot dom) = dom := joinDots_splitOnDot dom
  have he1 := encodeDomainName_fresh
    (enc16 h.TransactionID ++
      enc16 (h.Flags ||| QRResponse ||| RANotAvailable) ++
      enc16 h.QDCount ++ enc16 0 ++ enc16 0 ++ enc16 0)
    dom [] hne rfl hl63
  have he2 := encodeDomainName_hit
    (enc16 h.TransactionID ++
      enc16 (h.Flags ||| QRResponse ||| RANotAvailable) ++
      enc16 h.QDCount ++ enc16 0 ++ enc16 0 ++ enc16 0 ++
      encLabels (splitOnDot dom) ++ [0] ++ enc16 qt ++ enc16 qc)
    dom
    [(dom, (enc16 h.TransactionID ++
      enc16 (h.Flags ||| QRResponse ||| RANotAvailable) ++
      enc16 h.QDCount ++ enc16 0 ++ enc16 0 ++ enc16 0).length)]
    ((enc16 h.TransactionID ++
      enc16 (h.Flags ||| QRResponse ||| RANotAvailable) ++
      enc16 h.QDCount ++ enc16 0 ++ enc16 0 ++ enc16 0).length)
    hne (by simp)
  have hwa := writeAnswers_all_miss []
    [⟨dom, qt, qc⟩, ⟨dom, qt2, qc2⟩]
    (enc16 h.TransactionID ++
      enc16 (h.Flags ||| QRResponse ||| RANotAvailable) ++
      enc16 h.QDCount ++ enc16 0 ++ enc16 0 ++ enc16 0 ++
      encLabels (splitOnDot dom) ++ [0] ++ enc16 qt ++ enc16 qc ++
      enc16 (0xC000 ||| (enc16 h.TransactionID ++
        enc16 (h.Flags ||| QRResponse ||| RANotAvailable) ++
        enc16 h.QDCount ++ enc16 0 ++ enc16 0 ++ enc16 0).length) ++
      enc16 qt2 ++ enc16 qc2)
    [(dom, (enc16 h.TransactionID ++
      enc16 (h.Flags ||| QRResponse ||| RANotAvailable) ++
      enc16 h.QDCount ++ enc16 0 ++ enc16 0 ++ enc16 0).length)]
    0 (fun q hq => rfl)
  have hbuild : BuildDNSResponse [⟨dom, qt, qc⟩, ⟨dom, qt2, qc2⟩] h [] =
      .ok (enc16 h.TransactionID ++
        enc16 (h.Flags ||| QRResponse ||| RANotAvailable ||| NXDomain) ++
        enc16 h.QDCount ++ enc16 0 ++ enc16 0 ++ enc16 0 ++
        encLabels (splitOnDot dom) ++ [0] ++ enc16 qt ++ enc16 qc ++
        [192, 12] ++ enc16 qt2 ++ enc16 qc2) := by
    have hlen12 : (enc16 h.TransactionID ++
        enc16 (h.Flags ||| QRResponse ||| RANotAvailable) ++
        enc16 h.QDCount ++ enc16 0 ++ enc16 0 ++ enc16 0).length = 12 := by
      simp [enc16]
    unfold BuildDNSResponse
    rw [if_neg (by simp)]
    simp only [writeQuestions, he1, he2, hwa, if_true]
    rw [hlen12, show enc16 (49152 ||| 12) = [192, 12] from by decide]
    simp only [List.append_assoc]
    rw [put16_patch_header]
  refine ⟨_, hbuild, rfl, ?_, ?_⟩
  · have hinst := decodeDomainName_encLabels
      (enc16 h.TransactionID ++
        enc16 (h.Flags ||| QRResponse ||| RANotAvailable ||| NXDomain) ++
        enc16 h.QDCount ++ enc16 0 ++ enc16 0 ++ enc16 0)
      (enc16 qt ++ enc16 qc ++ [192, 12] ++ enc16 qt2 ++ enc16 qc2)
      (splitOnDot dom) (splitOnDot_ne_nil dom) hl
    rw [hjd] at hinst
    have hpre12 : (enc16 h.TransactionID ++
        enc16 (h.Flags ||| QRResponse ||| RANotAvailable ||| NXDomain) ++
        enc16 h.QDCount ++ enc16 0 ++ enc16 0 ++ enc16 0).length = 12 := by
      simp [enc16]
    rw [hpre12] at hinst
    rw [show 12 + (encLabels (splitOnDot dom)).length + 1 =
      13 + (encLabels (splitOnDot dom)).length from by omega] at hinst
    have hSassoc : enc16 h.TransactionID ++
        enc16 (h.Flags ||| QRResponse ||| RANotAvailable ||| NXDomain) ++
        enc16 h.QDCount ++ enc16 0 ++ enc16 0 ++ enc16 0 ++
        encLabels (splitOnDot dom) ++ [0] ++ enc16 qt ++ enc16 qc ++
        [192, 12] ++ enc16 qt2 ++ enc16 qc2 =
        (enc16 h.TransactionID ++
          enc16 (h.Flags ||| QRResponse ||| RANotAvailable ||| NXDomain) ++
          enc16 h.QDCount ++ enc16 0 ++ enc16 0 ++ enc16 0) ++
        encLabels (splitOnDot dom) ++ [0] ++
        (enc16 qt ++ enc16 qc ++ [192, 12] ++ enc16 qt2 ++ enc16 qc2) := by
      simp [List.append_assoc]
    rw [hSassoc]
    exact hinst
  · have hinst2 := decodeDomainName_ptr12
      (h.TransactionID / 256 % 256) (h.TransactionID % 256)
      ((h.Flags ||| QRResponse ||| RANotAvailable ||| NXDomain) / 256 % 256)
      ((h.Flags ||| QRResponse ||| RANotAvailable ||| NXDomain) % 256)
      (h.QDCount / 256 % 256) (h.QDCount % 256) 0 0 0 0 0 0
      (enc16 qt ++ enc16 qc) (enc16 qt2 ++ enc16 qc2)
      (splitOnDot dom) (splitOnDot_ne_nil dom) hl
    rw [hjd] at hinst2
    have hmid : (enc16 qt ++ enc16 qc).length = 4 := by simp [enc16]
    rw [hmid] at hinst2
    rw [show 13 + (encLabels (splitOnDot dom)).length + 4 =
      17 + (encLabels (splitOnDot dom)).length from by omega,
      show 15 + (encLabels (splitOnDot dom)).length + 4 =
      19 + (encLabels (splitOnDot dom)).length from by omega] at hinst2
    have hS2 : enc16 h.TransactionID ++
        enc16 (h.Flags ||| QRResponse ||| RANotAvailable ||| NXDomain) ++
        enc16 h.QDCount ++ enc16 0 ++ enc16 0 ++ enc16 0 ++
        encLabels (splitOnDot dom) ++ [0] ++ enc16 qt ++ enc16 qc ++
        [192, 12] ++ enc16 qt2 ++ enc16 qc2 =
        [h.TransactionID / 256 % 256, h.TransactionID % 256,
          (h.Flags ||| QRResponse ||| RANotAvailable ||| NXDomain) / 256 % 256,
          (h.Flags ||| QRResponse ||| RANotAvailable ||| NXDomain) % 256,
          h.QDCount / 256 % 256, h.QDCount % 256, 0, 0, 0, 0, 0, 0] ++
        encLabels (splitOnDot dom) ++ [0] ++ (enc16 qt ++ enc16 qc) ++
        ([192, 12] ++ (enc16 qt2 ++ enc16 qc2)) := by
      simp [enc16, List.append_assoc]
    rw [hS2]
    exact hinst2

/-- Witness for `buildDNSResponse_compression_roundtrip`: two questions for
`example.com` (types A and TXT) in one response. -/
theorem buildDNSResponse_compression_roundtrip_witness :
    ∃ resp,
      BuildDNSResponse [⟨strBytes "example.com", 1, 1⟩,
        ⟨strBytes "example.com", 16, 1⟩] ⟨0x1234, 0x0100, 2, 0, 0, 0⟩ [] =
        .ok resp ∧
      resp = enc16 0x1234 ++
        enc16 (0x0100 ||| QRResponse ||| RANotAvailable ||| NXDomain) ++
        enc16 2 ++ enc16 0 ++ enc16 0 ++ enc16 0 ++
        encLabels (splitOnDot (strBytes "example.com")) ++ [0] ++
        enc16 1 ++ enc16 1 ++ [192, 12] ++ enc16 16 ++ enc16 1 ∧
      decodeDomainName resp 12 =
        .ok (strBytes "example.com",
          13 + (encLabels (splitOnDot (strBytes "example.com"))).length) ∧
      decodeDomainName resp
        (17 + (encLabels (splitOnDot (strBytes "example.com"))).length) =
        .ok (strBytes "example.com",
          19 + (encLabels (splitOnDot (strBytes "example.com"))).length) :=
  buildDNSResponse_compression_roundtrip (strBytes "example.com")
    ⟨0x1234, 0x0100, 2, 0, 0, 0⟩ 1 1 16 1 (by decide) (by decide)
